import Mathlib

/-!
# Shape Abstraction Core — a shallow embedding

This file embeds, in Lean 4, the shape hierarchy of a 2D/3D collision-geometry
library (files `src/shape/shape.rs` and `src/shape/compound.rs`), in its 3D
configuration with the `f32` scalar.  Floating-point arithmetic is modelled as
exact arithmetic: every `f32` value is a rational number, so shape parameters
are `ℚ`; angular quantities (which involve `π` and `atan2`) live in `ℝ`.

The scalar/geometry kernel (vectors, isometries, AABBs, bounding spheres) and
the per-primitive geometry routines live outside the two provided source
files; those are modelled from the specification's words and marked
`Modelled from the spec:` in their doc comments.  Everything else is a direct
translation of the Rust source.
-/

namespace Parry

/-- `f32::MAX` as an exact rational: `(2^24 - 1) * 2^104`.  Used by the source
as `Real::MAX` (fold seeds of `Compound::ccd_thickness` and
`ccd_angular_thickness`) and as the `HalfSpace::ccd_thickness` saturation
value. -/
def realMax : ℚ := (2 ^ 24 - 1) * 2 ^ 104

/-- `f32::EPSILON = 2^-23` as an exact rational; this is the kernel's
`DEFAULT_EPSILON` used by `Ball::feature_normal_at_point`. -/
def defaultEpsilon : ℚ := 1 / 2 ^ 23

/-- Modelled from the spec: the kernel's dimension-parametric `Vector`/`Point`
type, fixed at the 3D build configuration. -/
structure Vec3 where
  x : ℚ
  y : ℚ
  z : ℚ
deriving DecidableEq, Repr

def Vec3.add (a b : Vec3) : Vec3 := ⟨a.x + b.x, a.y + b.y, a.z + b.z⟩

def Vec3.sub (a b : Vec3) : Vec3 := ⟨a.x - b.x, a.y - b.y, a.z - b.z⟩

/-- Componentwise product (the kernel's `component_mul`). -/
def Vec3.compMul (a b : Vec3) : Vec3 := ⟨a.x * b.x, a.y * b.y, a.z * b.z⟩

def Vec3.minV (a b : Vec3) : Vec3 := ⟨min a.x b.x, min a.y b.y, min a.z b.z⟩

def Vec3.maxV (a b : Vec3) : Vec3 := ⟨max a.x b.x, max a.y b.y, max a.z b.z⟩

/-- The kernel's `Vector::min()`: smallest component. -/
def Vec3.minElem (v : Vec3) : ℚ := min v.x (min v.y v.z)

def Vec3.zero : Vec3 := ⟨0, 0, 0⟩

def Vec3.splat (q : ℚ) : Vec3 := ⟨q, q, q⟩

def Vec3.absV (v : Vec3) : Vec3 := ⟨|v.x|, |v.y|, |v.z|⟩

def Vec3.dot (a b : Vec3) : ℚ := a.x * b.x + a.y * b.y + a.z * b.z

/-- Modelled from the spec: a rotation, stored as its matrix rows.  The claims
never compute with a non-identity rotation; the matrix form supports the
default AABB transform. -/
structure Rot where
  r0 : Vec3
  r1 : Vec3
  r2 : Vec3
deriving DecidableEq, Repr

def Rot.identity : Rot := ⟨⟨1, 0, 0⟩, ⟨0, 1, 0⟩, ⟨0, 0, 1⟩⟩

def Rot.mulVec (m : Rot) (v : Vec3) : Vec3 :=
  ⟨m.r0.dot v, m.r1.dot v, m.r2.dot v⟩

def Rot.absMat (m : Rot) : Rot := ⟨m.r0.absV, m.r1.absV, m.r2.absV⟩

/-- Modelled from the spec: the kernel's `Isometry` (rigid transform,
rotation + translation). -/
structure Isometry where
  rotation : Rot
  translation : Vec3
deriving DecidableEq, Repr

def Isometry.identity : Isometry := ⟨Rot.identity, Vec3.zero⟩

/-- Modelled from the spec: the kernel's axis-aligned bounding box. -/
structure Aabb where
  mins : Vec3
  maxs : Vec3
deriving DecidableEq, Repr

/-- Modelled from the spec: the kernel's `Aabb::new_invalid()` sentinel,
`mins = Real::MAX`, `maxs = -Real::MAX`; it acts as the identity of `merge`
on boxes with coordinates in the representable range. -/
def Aabb.newInvalid : Aabb := ⟨Vec3.splat realMax, Vec3.splat (-realMax)⟩

/-- Modelled from the spec: the kernel's `Aabb::merge` — componentwise union. -/
def Aabb.merge (a b : Aabb) : Aabb := ⟨a.mins.minV b.mins, a.maxs.maxV b.maxs⟩

/-- Modelled from the spec: the kernel's `Aabb::loosened(r)` — the box
"loosened (expanded)" by `r` on every side. -/
def Aabb.loosened (a : Aabb) (r : ℚ) : Aabb :=
  ⟨a.mins.sub (Vec3.splat r), a.maxs.add (Vec3.splat r)⟩

def Aabb.center (a : Aabb) : Vec3 :=
  ⟨(a.mins.x + a.maxs.x) / 2, (a.mins.y + a.maxs.y) / 2, (a.mins.z + a.maxs.z) / 2⟩

def Aabb.halfExtents (a : Aabb) : Vec3 :=
  ⟨(a.maxs.x - a.mins.x) / 2, (a.maxs.y - a.mins.y) / 2, (a.maxs.z - a.mins.z) / 2⟩

/-- Modelled from the spec: the kernel's `Aabb::transform_by(iso)` — the
axis-aligned box of the transformed box, via the rotated center and the
absolute rotation matrix applied to the half-extents. -/
def Aabb.transform_by (a : Aabb) (pos : Isometry) : Aabb :=
  let wc := (pos.rotation.mulVec a.center).add pos.translation
  let whe := pos.rotation.absMat.mulVec a.halfExtents
  ⟨wc.sub whe, wc.add whe⟩

/-- Modelled from the spec: scaling a box componentwise (used when scaling
buffer-backed shapes, whose geometry we retain only through their local
AABB). -/
def Aabb.scaleBox (a : Aabb) (s : Vec3) : Aabb :=
  ⟨(a.mins.compMul s).minV (a.maxs.compMul s),
   (a.mins.compMul s).maxV (a.maxs.compMul s)⟩

/-- Modelled from the spec: the kernel's center + radius bounding sphere. -/
structure BoundingSphere where
  center : Vec3
  radius : ℚ
deriving DecidableEq, Repr

/-- Modelled from the spec: the kernel's `BoundingSphere::loosened(r)` — the
radius grows by `r`. -/
def BoundingSphere.loosened (s : BoundingSphere) (r : ℚ) : BoundingSphere :=
  ⟨s.center, s.radius + r⟩

/-- Modelled from the spec: the kernel's `Aabb::bounding_sphere()`.  The spec
only requires a "tight-or-loose sphere bound"; to stay in `ℚ` we use the L1
over-approximation of the half-diagonal Euclidean norm as the radius. -/
def Aabb.bounding_sphere (a : Aabb) : BoundingSphere :=
  ⟨a.center, |a.halfExtents.x| + |a.halfExtents.y| + |a.halfExtents.z|⟩

/-- An opaque identifier for a vertex/edge/face of a shape (the external
`FeatureId`). -/
abbrev FeatureId : Type := ℕ

/-- The `ShapeType` registry of `shape.rs`, 3D configuration (so
`ConvexPolygon`/`RoundConvexPolygon` are absent and
`ConvexPolyhedron`/`Cylinder`/`Cone` and their round variants are present). -/
inductive ShapeType where
  | ball
  | cuboid
  | capsule
  | segment
  | triangle
  | voxels
  | triMesh
  | polyline
  | halfSpace
  | heightField
  | compound
  | convexPolyhedron
  | cylinder
  | cone
  | roundCuboid
  | roundTriangle
  | roundCylinder
  | roundCone
  | roundConvexPolyhedron
  | custom
deriving DecidableEq, Repr

/-- The closed shape taxonomy (3D configuration).

* Primitives carry their geometric parameters exactly as in the source
  (`Ball { radius }`, `Cuboid { half_extents }`, …).
* Buffer-backed shapes (`Voxels`, `TriMesh`, `Polyline`, `HeightField`,
  `ConvexPolyhedron`) have their vertex/index data outside the provided
  sources; modelled from the spec, we retain the data the `Shape` impls in
  `shape.rs` actually consume: the precomputed local AABB (and, for `Voxels`,
  the voxel size used by `ccd_thickness`).
* `compound` carries the four fields of the `Compound` struct of
  `compound.rs`: the ordered `(Isometry, SharedShape)` list, the BVH (whose
  construction is external; modelled from the spec as its leaf list
  `{(i, aabbs[i])}`), the parallel AABB list and the merged root AABB.
* `round inner borderRadius` models the generic `RoundShape<S>` wrapper; the
  source instantiates it only at the five legal inner types (see
  `isLegalRoundInner`). -/
inductive Shape where
  | ball (radius : ℚ)
  | cuboid (halfExtents : Vec3)
  | capsule (a b : Vec3) (radius : ℚ)
  | segment (a b : Vec3)
  | triangle (a b c : Vec3)
  | voxels (voxelSize : Vec3) (localAabb : Aabb)
  | trimesh (localAabb : Aabb)
  | polyline (localAabb : Aabb)
  | halfSpace (normal : Vec3)
  | heightField (localAabb : Aabb)
  | compound (shapes : List (Isometry × Shape)) (bvh : List (ℕ × Aabb))
      (aabbs : List Aabb) (aabb : Aabb)
  | convexPolyhedron (localAabb : Aabb)
  | cylinder (halfHeight radius : ℚ)
  | cone (halfHeight radius : ℚ)
  | round (inner : Shape) (borderRadius : ℚ)

/-- The `Compound` struct of `compound.rs`:
ordered child list, BVH (modelled as its leaf list), parallel AABB list,
merged root AABB. -/
structure Compound where
  shapes : List (Isometry × Shape)
  bvh : List (ℕ × Aabb)
  aabbs : List Aabb
  aabb : Aabb

/-- The `Shape` impl for `Compound` views the struct as a shape. -/
def Compound.toShape (c : Compound) : Shape :=
  .compound c.shapes c.bvh c.aabbs c.aabb

/-- The five inner types at which `impl_shape_for_round_shape!` is
instantiated in the 3D configuration: `Cuboid`, `Triangle`, `Cylinder`,
`Cone`, `ConvexPolyhedron`. -/
def isLegalRoundInner : Shape → Bool
  | .cuboid _ => true
  | .triangle _ _ _ => true
  | .cylinder _ _ => true
  | .cone _ _ => true
  | .convexPolyhedron _ => true
  | _ => false

/-- Maps an inner shape's tag to the corresponding `Round*` tag
(`ShapeType::$Tag` in the macro); inner tags that the source never
instantiates are sent to `custom`. -/
def roundTagOf : ShapeType → ShapeType
  | .cuboid => .roundCuboid
  | .triangle => .roundTriangle
  | .cylinder => .roundCylinder
  | .cone => .roundCone
  | .convexPolyhedron => .roundConvexPolyhedron
  | _ => .custom

/-- `Shape::shape_type` — the type tag, per the `impl Shape for …` blocks of
`shape.rs`. -/
def Shape.shape_type : Shape → ShapeType
  | .ball _ => .ball
  | .cuboid _ => .cuboid
  | .capsule _ _ _ => .capsule
  | .segment _ _ => .segment
  | .triangle _ _ _ => .triangle
  | .voxels _ _ => .voxels
  | .trimesh _ => .triMesh
  | .polyline _ => .polyline
  | .halfSpace _ => .halfSpace
  | .heightField _ => .heightField
  | .compound _ _ _ _ => .compound
  | .convexPolyhedron _ => .convexPolyhedron
  | .cylinder _ _ => .cylinder
  | .cone _ _ => .cone
  | .round inner _ => roundTagOf inner.shape_type

/-- `Shape::is_convex` — `true` for the shapes whose impl overrides it
(`Ball`, `Cuboid`, `Capsule`, `Triangle`, `Segment`, `ConvexPolyhedron`,
`Cylinder`, `Cone`, `HalfSpace`), delegation to the inner shape for
`RoundShape`, and the trait default `false` ("unknown") everywhere else. -/
def Shape.is_convex : Shape → Bool
  | .ball _ => true
  | .cuboid _ => true
  | .capsule _ _ _ => true
  | .segment _ _ => true
  | .triangle _ _ _ => true
  | .halfSpace _ => true
  | .convexPolyhedron _ => true
  | .cylinder _ _ => true
  | .cone _ _ => true
  | .round inner _ => inner.is_convex
  | _ => false

/-- `Shape::as_support_map` — `Some` (modelled as `some ()`) exactly for the
impls that override the trait default `None`: the convex primitives and every
`RoundShape` instantiation.  `HalfSpace`'s impl does *not* override it. -/
def Shape.as_support_map : Shape → Option Unit
  | .ball _ => some ()
  | .cuboid _ => some ()
  | .capsule _ _ _ => some ()
  | .segment _ _ => some ()
  | .triangle _ _ _ => some ()
  | .convexPolyhedron _ => some ()
  | .cylinder _ _ => some ()
  | .cone _ _ => some ()
  | .round _ _ => some ()
  | _ => none

/-- `Shape::as_composite_shape` — `Some` (modelled as `some ()`) exactly for
the impls that override the trait default: `Compound`, `Polyline`, `TriMesh`.
Note that in `shape.rs` neither `HeightField` nor `Voxels` overrides it. -/
def Shape.as_composite_shape : Shape → Option Unit
  | .compound _ _ _ _ => some ()
  | .polyline _ => some ()
  | .trimesh _ => some ()
  | _ => none

mutual

/-- `Shape::ccd_thickness`, per the impls of `shape.rs`:
radius for `Ball`/`Capsule`/`Cylinder`/`Cone`, smallest half-extent for
`Cuboid`, `0` for the degenerate shapes, `f32::MAX` for `HalfSpace`, smallest
voxel size for `Voxels`, local-AABB half-extent minimum for
`ConvexPolyhedron`, `inner + border_radius` for `RoundShape`, and for
`Compound` the source's fold `min` over children seeded with `Real::MAX`. -/
def Shape.ccd_thickness : Shape → ℚ
  | .ball r => r
  | .cuboid he => he.minElem
  | .capsule _ _ r => r
  | .segment _ _ => 0
  | .triangle _ _ _ => 0
  | .voxels vs _ => vs.minElem
  | .trimesh _ => 0
  | .polyline _ => 0
  | .halfSpace _ => realMax
  | .heightField _ => 0
  | .compound shapes _ _ _ => ccdThicknessFold shapes realMax
  | .convexPolyhedron la => la.halfExtents.minElem
  | .cylinder _ r => r
  | .cone _ r => r
  | .round inner r => inner.ccd_thickness + r

/-- The `fold` of `Compound::ccd_thickness`:
`shapes.iter().fold(curr, |curr, (_, s)| curr.min(s.ccd_thickness()))`. -/
def ccdThicknessFold : List (Isometry × Shape) → ℚ → ℚ
  | [], curr => curr
  | p :: rest, curr => ccdThicknessFold rest (min curr p.2.ccd_thickness)

end

/-- `Shape::compute_local_aabb`.  The per-primitive `local_aabb()` routines
live outside the provided sources; modelled from the spec (scenario 1 fixes
the ball and cuboid boxes) they are the usual closed-form boxes.  The
`Compound` case returns the stored merged AABB and the `RoundShape` case
loosens the inner box by the border radius — both directly from the source. -/
def Shape.compute_local_aabb : Shape → Aabb
  | .ball r => ⟨Vec3.splat (-r), Vec3.splat r⟩
  | .cuboid he => ⟨Vec3.zero.sub he, he⟩
  | .capsule a b r => ⟨(a.minV b).sub (Vec3.splat r), (a.maxV b).add (Vec3.splat r)⟩
  | .segment a b => ⟨a.minV b, a.maxV b⟩
  | .triangle a b c => ⟨(a.minV b).minV c, (a.maxV b).maxV c⟩
  | .voxels _ la => la
  | .trimesh la => la
  | .polyline la => la
  | .halfSpace _ => ⟨Vec3.splat (-realMax), Vec3.splat realMax⟩
  | .heightField la => la
  | .compound _ _ _ aabb => aabb
  | .convexPolyhedron la => la
  | .cylinder hh r => ⟨⟨-r, -hh, -r⟩, ⟨r, hh, r⟩⟩
  | .cone hh r => ⟨⟨-r, -hh, -r⟩, ⟨r, hh, r⟩⟩
  | .round inner r => inner.compute_local_aabb.loosened r

/-- `Shape::compute_local_bounding_sphere`.  The `RoundShape` case loosens
the inner sphere by the border radius and the `Compound` case takes the
stored AABB's bounding sphere — both directly from the source.  The
per-primitive spheres are external; modelled from the spec ("tight-or-loose
sphere bound") we take the bounding sphere of the local AABB. -/
def Shape.compute_local_bounding_sphere : Shape → BoundingSphere
  | .round inner r => inner.compute_local_bounding_sphere.loosened r
  | s => s.compute_local_aabb.bounding_sphere

/-- `Shape::compute_aabb(pos)`.  Each impl delegates to the shape's external
`aabb(pos)` routine; modelled from the spec, whose invariant 1 fixes the
contractual default `compute_local_aabb().transform_by(pos)` (the `Compound`
impl in the source is literally this default). -/
def Shape.compute_aabb (s : Shape) (pos : Isometry) : Aabb :=
  s.compute_local_aabb.transform_by pos

/-- The external `MassProperties` kernels are explicitly out of the spec's
scope; we model a `MassProperties` value as an opaque record of which
closed-form kernel the source invoked, with which arguments. -/
inductive MassProperties where
  | zero
  | from_ball (density radius : ℚ)
  | from_cuboid (density : ℚ) (halfExtents : Vec3)
  | from_capsule (density : ℚ) (a b : Vec3) (radius : ℚ)
  | from_cone (density halfHeight radius : ℚ)
  | from_cylinder (density halfHeight radius : ℚ)
  | from_convex_polyhedron (density : ℚ) (localAabb : Aabb)
  | from_trimesh (density : ℚ) (localAabb : Aabb)
  | from_voxels (density : ℚ) (voxelSize : Vec3) (localAabb : Aabb)
  | from_compound (density : ℚ) (shapes : List (Isometry × Shape))

/-- `Shape::mass_properties(density)`, per the impls of `shape.rs`:
each impl invokes the matching external kernel; `Segment`, `HalfSpace`,
`Polyline`, `HeightField` and (3D) `Triangle` return `zero`; `RoundShape`
delegates to the inner shape unchanged. -/
def Shape.mass_properties : Shape → ℚ → MassProperties
  | .ball r, d => .from_ball d r
  | .cuboid he, d => .from_cuboid d he
  | .capsule a b r, d => .from_capsule d a b r
  | .segment _ _, _ => .zero
  | .triangle _ _ _, _ => .zero
  | .voxels vs la, d => .from_voxels d vs la
  | .trimesh la, d => .from_trimesh d la
  | .polyline _, _ => .zero
  | .halfSpace _, _ => .zero
  | .heightField _, _ => .zero
  | .compound shapes _ _ _, d => .from_compound d shapes
  | .convexPolyhedron la, d => .from_convex_polyhedron d la
  | .cylinder hh r, d => .from_cylinder d hh r
  | .cone hh r, d => .from_cone d hh r
  | .round inner _, d => inner.mass_properties d

/-- Modelled from the spec: the kernel's `atan2(y, x)` (the standard
two-argument arctangent), referenced by the spec as
`apex_half_angle = atan2(radius, half_height)`. -/
noncomputable def atan2 (y x : ℝ) : ℝ :=
  if 0 < x then Real.arctan (y / x)
  else if x < 0 then
    (if 0 ≤ y then Real.arctan (y / x) + Real.pi else Real.arctan (y / x) - Real.pi)
  else
    (if 0 < y then Real.pi / 2 else if y < 0 then -(Real.pi / 2) else 0)

mutual

/-- `Shape::ccd_angular_thickness`, per the impls of `shape.rs`:
`π` for `Ball` and `HalfSpace`; `π/2` for `Cuboid`, `Capsule`, `Segment`,
`Triangle`, `Voxels`, `Cylinder`; `π/4` for `TriMesh`, `Polyline`,
`HeightField`, `ConvexPolyhedron`; the apex-angle formula for `Cone`
(`Cone::ccd_angular_thickness`, source lines 1459–1464, with the
non-negativity `assert!` left implicit); delegation to the inner shape for
`RoundShape`; and for `Compound` the source's fold `max` over children
seeded with `Real::MAX` (source lines 1051–1055). -/
noncomputable def Shape.ccd_angular_thickness : Shape → ℝ
  | .ball _ => Real.pi
  | .cuboid _ => Real.pi / 2
  | .capsule _ _ _ => Real.pi / 2
  | .segment _ _ => Real.pi / 2
  | .triangle _ _ _ => Real.pi / 2
  | .voxels _ _ => Real.pi / 2
  | .trimesh _ => Real.pi / 4
  | .polyline _ => Real.pi / 4
  | .halfSpace _ => Real.pi
  | .heightField _ => Real.pi / 4
  | .compound shapes _ _ _ => ccdAngularThicknessFold shapes ((realMax : ℚ) : ℝ)
  | .convexPolyhedron _ => Real.pi / 4
  | .cylinder _ _ => Real.pi / 2
  | .cone hh r =>
      let apexHalfAngle := atan2 ((r : ℚ) : ℝ) ((hh : ℚ) : ℝ)
      let basisAngle := Real.pi / 2 - apexHalfAngle
      min basisAngle (apexHalfAngle * 2)
  | .round inner _ => inner.ccd_angular_thickness

/-- The `fold` of `Compound::ccd_angular_thickness`:
`shapes.iter().fold(curr, |curr, (_, s)| curr.max(s.ccd_angular_thickness()))`. -/
noncomputable def ccdAngularThicknessFold : List (Isometry × Shape) → ℝ → ℝ
  | [], curr => curr
  | p :: rest, curr => ccdAngularThicknessFold rest (max curr p.2.ccd_angular_thickness)

end

/-- Squared Euclidean norm of a `Vec3`, as a real number. -/
def Vec3.normSq (v : Vec3) : ℚ := v.x * v.x + v.y * v.y + v.z * v.z

/-- Euclidean norm of a `Vec3`, as a real number. -/
noncomputable def Vec3.norm (v : Vec3) : ℝ := Real.sqrt ((v.normSq : ℚ) : ℝ)

/-- Modelled from the spec: the kernel's `Unit::try_new(v, eps)` —
`None` when `‖v‖ ≤ eps`, otherwise the normalization `v / ‖v‖` (whose
components are real numbers). -/
noncomputable def unitTryNew (v : Vec3) (eps : ℚ) : Option (ℝ × ℝ × ℝ) :=
  if v.norm ≤ ((eps : ℚ) : ℝ) then none
  else some (((v.x : ℚ) : ℝ) / v.norm, ((v.y : ℚ) : ℝ) / v.norm, ((v.z : ℚ) : ℝ) / v.norm)

/-- `Ball::feature_normal_at_point` (source lines 728–737):
`Unit::try_new(point.coords, DEFAULT_EPSILON)` — the feature id and the ball
itself are ignored. -/
noncomputable def Ball.feature_normal_at_point (_radius : ℚ) (_feature : FeatureId)
    (point : Vec3) : Option (ℝ × ℝ × ℝ) :=
  unitTryNew point defaultEpsilon

/-- The failure conditions of `Compound::new` (which `panic!`s in the source;
the spec names the two conditions `EmptyCompound` and `NestedComposite`). -/
inductive CompoundError where
  | emptyCompound
  | nestedComposite
deriving DecidableEq, Repr

/-- The loop body of `Compound::new` (source lines 44–54): for each child,
compute `bv = shape.compute_aabb(delta)`, merge it into the running root
AABB, push it onto the parallel AABB list and the BVH leaf staging list, and
reject with `NestedComposite` if the child reports itself as a composite
shape. -/
def compoundBuildLoop :
    List (Isometry × Shape) → ℕ → List Aabb → List (ℕ × Aabb) → Aabb →
    Except CompoundError (List Aabb × List (ℕ × Aabb) × Aabb)
  | [], _, aabbs, leaves, aabb => .ok (aabbs, leaves, aabb)
  | (delta, shape) :: rest, i, aabbs, leaves, aabb =>
      let bv := shape.compute_aabb delta
      let aabb' := aabb.merge bv
      let aabbs' := aabbs ++ [bv]
      let leaves' := leaves ++ [(i, bv)]
      if shape.as_composite_shape.isSome then .error .nestedComposite
      else compoundBuildLoop rest (i + 1) aabbs' leaves' aabb'

/-- `Compound::new` (source lines 35–66): reject an empty child list
(`EmptyCompound`), run the per-child loop, build the static BVH from the
staged leaves (the binned builder is external; modelled from the spec, the
BVH is its leaf list), and store the moved-in `shapes` alongside `aabbs`,
the merged `aabb` and the `bvh`. -/
def Compound.new (shapes : List (Isometry × Shape)) : Except CompoundError Compound :=
  if shapes.isEmpty then .error .emptyCompound
  else
    (compoundBuildLoop shapes 0 [] [] Aabb.newInvalid).map fun acc =>
      { shapes := shapes, bvh := acc.2.1, aabbs := acc.1, aabb := acc.2.2 }

/-- `Compound::local_aabb()` (source lines 100–103): the stored merged AABB. -/
def Compound.local_aabb (c : Compound) : Aabb := c.aabb

/-- `Compound::local_bounding_sphere()` (source lines 105–109):
`self.aabb.bounding_sphere()`. -/
def Compound.local_bounding_sphere (c : Compound) : BoundingSphere :=
  c.aabb.bounding_sphere

/-- `CompositeShape::map_part_at` for `Compound` (source lines 126–134):
`self.shapes.get(shape_id)` — when the index is in bounds the visitor is
invoked once with `(Some(&shape.0), &*shape.1, None)`; otherwise nothing
happens.  We model the call as the argument pair handed to the visitor. -/
def Compound.map_part_at (c : Compound) (shape_id : ℕ) : Option (Isometry × Shape) :=
  (c.shapes.get? shape_id).map fun s => (s.1, s.2)

/-- `TypedCompositeShape::map_typed_part_at` for `Compound` (source lines
147–158): `&self.shapes[i as usize]` — a direct index (a panic when out of
bounds, hence the bound hypothesis), always returning `Some` of the visitor's
result.  We model the result as the argument pair handed to the visitor. -/
def Compound.map_typed_part_at (c : Compound) (i : ℕ) (h : i < c.shapes.length) :
    Option (Isometry × Shape) :=
  some (c.shapes.get ⟨i, h⟩)

/-- `TypedCompositeShape::map_untyped_part_at` for `Compound` (source lines
161–172): same direct index as `map_typed_part_at`. -/
def Compound.map_untyped_part_at (c : Compound) (i : ℕ) (h : i < c.shapes.length) :
    Option (Isometry × Shape) :=
  some (c.shapes.get ⟨i, h⟩)

mutual

/-- `Shape::scale_dyn(scale, num_subdivisions)`.

The `Compound` case is `Compound::scale_dyn` (source lines 1001–1019): scale
each child's translation componentwise, keep its rotation, recursively scale
the child shape, propagate any child's `None`, and rebuild through
`Compound::new`.  The `RoundShape` cases scale the inner shape and keep the
border radius (the macro instantiations, source lines 1626–1727).

The per-primitive `scaled` routines are external to the provided sources;
modelled from the spec (§4.4): uniform scaling preserves the concrete type,
while a `Ball`/`Capsule`/`Cylinder`/`Cone` under an incompatible scale
degrades into a convex polytope (retained through its scaled local AABB);
`HalfSpace` and `ConvexPolyhedron` may fail (`UnscalableShape`) on a
degenerate result. -/
def Shape.scale_dyn : Shape → Vec3 → ℕ → Option Shape
  | .ball r, s, _ =>
      if s.x = s.y ∧ s.y = s.z then some (.ball (r * |s.x|))
      else some (.convexPolyhedron ((Shape.ball r).compute_local_aabb.scaleBox s))
  | .cuboid he, s, _ => some (.cuboid (he.compMul s).absV)
  | .capsule a b r, s, _ =>
      if s.x = s.y ∧ s.y = s.z then
        some (.capsule (a.compMul s) (b.compMul s) (r * |s.x|))
      else some (.convexPolyhedron ((Shape.capsule a b r).compute_local_aabb.scaleBox s))
  | .segment a b, s, _ => some (.segment (a.compMul s) (b.compMul s))
  | .triangle a b c, s, _ => some (.triangle (a.compMul s) (b.compMul s) (c.compMul s))
  | .voxels vs la, s, _ => some (.voxels (vs.compMul s).absV (la.scaleBox s))
  | .trimesh la, s, _ => some (.trimesh (la.scaleBox s))
  | .polyline la, s, _ => some (.polyline (la.scaleBox s))
  | .halfSpace n, s, _ =>
      if n.compMul s = Vec3.zero then none else some (.halfSpace (n.compMul s))
  | .heightField la, s, _ => some (.heightField (la.scaleBox s))
  | .compound shapes _ _ _, s, nsub =>
      match scaleShapeList shapes s nsub with
      | none => none
      | some scaled => (Compound.new scaled).toOption.map Compound.toShape
  | .convexPolyhedron la, s, _ =>
      if s.x = 0 ∨ s.y = 0 ∨ s.z = 0 then none
      else some (.convexPolyhedron (la.scaleBox s))
  | .cylinder hh r, s, _ =>
      if s.x = s.z then some (.cylinder (hh * |s.y|) (r * |s.x|))
      else some (.convexPolyhedron ((Shape.cylinder hh r).compute_local_aabb.scaleBox s))
  | .cone hh r, s, _ =>
      if s.x = s.z then some (.cone (hh * |s.y|) (r * |s.x|))
      else some (.convexPolyhedron ((Shape.cone hh r).compute_local_aabb.scaleBox s))
  | .round inner r, s, nsub => (inner.scale_dyn s nsub).map (.round · r)

/-- The `map`/`collect::<Option<Vec<_>>>` of `Compound::scale_dyn`: each
child becomes `(Isometry::from_parts(translation.component_mul(scale),
rotation), scaled_shape)`, and a `None` from any child propagates. -/
def scaleShapeList : List (Isometry × Shape) → Vec3 → ℕ → Option (List (Isometry × Shape))
  | [], _, _ => some []
  | (pos, sh) :: rest, s, nsub =>
      match sh.scale_dyn s nsub with
      | none => none
      | some sh' =>
          match scaleShapeList rest s nsub with
          | none => none
          | some rest' => some ((⟨pos.rotation, pos.translation.compMul s⟩, sh') :: rest')

end

/-- What `Compound::scale_dyn` observably does, phrased as the claims phrase
it: it returns `None` exactly when some child's `scale_dyn` returns `None`;
and when every child scales, the result is a `Compound` whose `i`-th child
has the original translation scaled componentwise, the original rotation,
and the original child shape's `scale_dyn` result as its shape. -/
def ScaleDynSpec (c : Compound) (s : Vec3) (nsub : ℕ) : Prop :=
  (c.toShape.scale_dyn s nsub = none ↔ ∃ p ∈ c.shapes, p.2.scale_dyn s nsub = none) ∧
  ((∀ p ∈ c.shapes, (p.2.scale_dyn s nsub).isSome) →
    ∃ c' : Compound, c.toShape.scale_dyn s nsub = some c'.toShape ∧
      c'.shapes.length = c.shapes.length ∧
      ∀ i (h1 : i < c'.shapes.length) (h2 : i < c.shapes.length),
        (c'.shapes.get ⟨i, h1⟩).1.translation =
          (c.shapes.get ⟨i, h2⟩).1.translation.compMul s ∧
        (c'.shapes.get ⟨i, h1⟩).1.rotation = (c.shapes.get ⟨i, h2⟩).1.rotation ∧
        some (c'.shapes.get ⟨i, h1⟩).2 = (c.shapes.get ⟨i, h2⟩).2.scale_dyn s nsub)

/-- The local AABB of a unit ball: concrete input used by witnesses. -/
def ballUnitBox : Aabb := ⟨⟨-1, -1, -1⟩, ⟨1, 1, 1⟩⟩

/-- A one-child input list for `Compound::new`: concrete witness input. -/
def exampleChildren : List (Isometry × Shape) := [(Isometry.identity, Shape.ball 1)]

/-- The compound built by `Compound::new` from `exampleChildren`. -/
def exampleCompound : Compound :=
  ⟨exampleChildren, [(0, ballUnitBox)], [ballUnitBox], ballUnitBox⟩

/-- A two-child `Compound` (a unit ball at the origin and a unit cuboid
translated by `(3,0,0)`): concrete witness input for scaling. -/
def scaleExampleCompound : Compound :=
  ⟨[(Isometry.identity, Shape.ball 1), (⟨Rot.identity, ⟨3, 0, 0⟩⟩, Shape.cuboid ⟨1, 1, 1⟩)],
   [(0, ballUnitBox), (1, ⟨⟨2, -1, -1⟩, ⟨4, 1, 1⟩⟩)],
   [ballUnitBox, ⟨⟨2, -1, -1⟩, ⟨4, 1, 1⟩⟩],
   ⟨⟨-1, -1, -1⟩, ⟨4, 1, 1⟩⟩⟩

/-! ## Theorems -/

/-- C2 (counterexample): the claim "`is_convex() = true` implies
`as_support_map()` is `Some` for every shape of the closed taxonomy" fails at
`HalfSpace`: its `Shape` impl (source lines 1475–1523) overrides `is_convex`
to `true` but does not override `as_support_map`, so the trait default `None`
applies. -/
theorem halfspace_convex_without_support_map :
    (Shape.halfSpace ⟨0, 0, 1⟩).is_convex = true ∧
      (Shape.halfSpace ⟨0, 0, 1⟩).as_support_map = none :=
  ⟨rfl, rfl⟩

/-- C2 (amended): for every shape of the closed taxonomy other than
`HalfSpace`, `is_convex() = true` implies `as_support_map()` is `Some`. -/
theorem convex_implies_support_map_except_halfspace :
    ∀ s : Shape, s.shape_type ≠ ShapeType.halfSpace → s.is_convex = true →
      s.as_support_map.isSome = true := by
  intro s hty hconv
  cases s <;> simp_all [Shape.shape_type, Shape.is_convex, Shape.as_support_map]

/-- C2 (witness): the amended implication applied to `Ball(1)`. -/
theorem convex_implies_support_map_witness :
    (Shape.ball 1).shape_type ≠ ShapeType.halfSpace ∧
      (Shape.ball 1).is_convex = true ∧
      (Shape.ball 1).as_support_map.isSome = true :=
  ⟨by simp [Shape.shape_type], rfl,
    convex_implies_support_map_except_halfspace (Shape.ball 1) (by simp [Shape.shape_type]) rfl⟩

/-- C5: for every legal rounded shape `RoundShape(inner, r)`, the local AABB
and local bounding sphere are the inner shape's loosened by `r`, convexity
and CCD angular thickness are delegated to the inner shape, and the CCD
thickness is the inner shape's plus `r`; in particular
`Rounded(Cuboid(h), r).ccd_thickness() = min(h) + r`. -/
theorem round_shape_derived_contracts :
    (∀ (inner : Shape) (r : ℚ), isLegalRoundInner inner = true →
      (Shape.round inner r).compute_local_aabb = inner.compute_local_aabb.loosened r ∧
      (Shape.round inner r).compute_local_bounding_sphere =
        inner.compute_local_bounding_sphere.loosened r ∧
      (Shape.round inner r).is_convex = inner.is_convex ∧
      (Shape.round inner r).ccd_thickness = inner.ccd_thickness + r ∧
      (Shape.round inner r).ccd_angular_thickness = inner.ccd_angular_thickness) ∧
    ∀ (he : Vec3) (r : ℚ),
      (Shape.round (Shape.cuboid he) r).ccd_thickness = he.minElem + r := by
  constructor
  · intro inner r _
    exact ⟨rfl, rfl, rfl, rfl, rfl⟩
  · intro he r
    rfl

/-- C5 (witness): the rounded-shape contracts applied to
`RoundCuboid(Cuboid(1,2,3), 1/2)`. -/
theorem round_shape_derived_contracts_witness :
    isLegalRoundInner (Shape.cuboid ⟨1, 2, 3⟩) = true ∧
      ((Shape.round (Shape.cuboid ⟨1, 2, 3⟩) (1/2)).compute_local_aabb =
        (Shape.cuboid ⟨1, 2, 3⟩).compute_local_aabb.loosened (1/2) ∧
      (Shape.round (Shape.cuboid ⟨1, 2, 3⟩) (1/2)).compute_local_bounding_sphere =
        (Shape.cuboid ⟨1, 2, 3⟩).compute_local_bounding_sphere.loosened (1/2) ∧
      (Shape.round (Shape.cuboid ⟨1, 2, 3⟩) (1/2)).is_convex =
        (Shape.cuboid ⟨1, 2, 3⟩).is_convex ∧
      (Shape.round (Shape.cuboid ⟨1, 2, 3⟩) (1/2)).ccd_thickness =
        (Shape.cuboid ⟨1, 2, 3⟩).ccd_thickness + 1/2 ∧
      (Shape.round (Shape.cuboid ⟨1, 2, 3⟩) (1/2)).ccd_angular_thickness =
        (Shape.cuboid ⟨1, 2, 3⟩).ccd_angular_thickness) :=
  ⟨rfl, round_shape_derived_contracts.1 (Shape.cuboid ⟨1, 2, 3⟩) (1/2) rfl⟩

/-- C9: `RoundShape::mass_properties` (source lines 1589–1591) delegates to
the inner shape unchanged — the border radius contributes nothing to the
mass properties. -/
theorem round_shape_mass_properties_delegates :
    ∀ (inner : Shape) (r d : ℚ), isLegalRoundInner inner = true →
      (Shape.round inner r).mass_properties d = inner.mass_properties d := by
  intro inner r d _
  rfl

/-- C9 (witness): mass-property delegation applied to
`RoundCuboid(Cuboid(1,2,3), 1/2)` at density `2`. -/
theorem round_shape_mass_properties_witness :
    isLegalRoundInner (Shape.cuboid ⟨1, 2, 3⟩) = true ∧
      (Shape.round (Shape.cuboid ⟨1, 2, 3⟩) (1/2)).mass_properties 2 =
        (Shape.cuboid ⟨1, 2, 3⟩).mass_properties 2 :=
  ⟨rfl, round_shape_mass_properties_delegates (Shape.cuboid ⟨1, 2, 3⟩) (1/2) 2 rfl⟩

/-- C10: `Compound::map_part_at` uses `self.shapes.get(shape_id)` and is a
silent no-op for an out-of-bounds id, while `map_typed_part_at` and
`map_untyped_part_at` index `self.shapes[i]` directly (modelled by the bound
hypothesis) and always invoke the visitor on the `i`-th child. -/
theorem compound_map_part_at_out_of_bounds :
    ∀ (c : Compound) (i : ℕ),
      (c.shapes.length ≤ i → c.map_part_at i = none) ∧
      ∀ h : i < c.shapes.length,
        c.map_part_at i = some (c.shapes.get ⟨i, h⟩) ∧
        c.map_typed_part_at i h = some (c.shapes.get ⟨i, h⟩) ∧
        c.map_untyped_part_at i h = some (c.shapes.get ⟨i, h⟩) := by
  intro c i
  constructor
  · intro hout
    simp only [Compound.map_part_at, List.get?_eq_none.mpr hout, Option.map_none']
  · intro h
    refine ⟨?_, rfl, rfl⟩
    simp [Compound.map_part_at, List.get?_eq_get h]

/-- C10 (witness): the one-child example compound, queried at the
out-of-bounds id `3` and the in-bounds id `0`. -/
theorem compound_map_part_at_witness :
    (exampleCompound.shapes.length ≤ 3 ∧ exampleCompound.map_part_at 3 = none) ∧
      ∃ h : 0 < exampleCompound.shapes.length,
        exampleCompound.map_typed_part_at 0 h =
          some (exampleCompound.shapes.get ⟨0, h⟩) := by
  have hlen : exampleCompound.shapes.length ≤ 3 := by
    simp [exampleCompound, exampleChildren]
  have hin : 0 < exampleCompound.shapes.length := by
    simp [exampleCompound, exampleChildren]
  exact ⟨⟨hlen, (compound_map_part_at_out_of_bounds exampleCompound 3).1 hlen⟩,
    ⟨hin, ((compound_map_part_at_out_of_bounds exampleCompound 0).2 hin).2.1⟩⟩

theorem compoundBuildLoop_error_iff (l : List (Isometry × Shape)) (i : ℕ)
    (as : List Aabb) (ls : List (ℕ × Aabb)) (ab : Aabb) :
    compoundBuildLoop l i as ls ab = .error .nestedComposite ↔
      ∃ p ∈ l, p.2.as_composite_shape.isSome := by
  induction l generalizing i as ls ab with
  | nil => simp [compoundBuildLoop]
  | cons hd tl ih =>
    obtain ⟨delta, shape⟩ := hd
    by_cases hc : shape.as_composite_shape.isSome
    · simp [compoundBuildLoop, hc]
    · simp [compoundBuildLoop, hc, ih]

theorem compoundBuildLoop_ne_empty (l : List (Isometry × Shape)) (i : ℕ)
    (as : List Aabb) (ls : List (ℕ × Aabb)) (ab : Aabb) :
    compoundBuildLoop l i as ls ab ≠ .error .emptyCompound := by
  induction l generalizing i as ls ab with
  | nil => simp [compoundBuildLoop]
  | cons hd tl ih =>
    obtain ⟨delta, shape⟩ := hd
    by_cases hc : shape.as_composite_shape.isSome
    · simp [compoundBuildLoop, hc]
    · simp [compoundBuildLoop, hc, ih]

theorem compoundBuildLoop_ok (l : List (Isometry × Shape)) (i : ℕ)
    (as : List Aabb) (ls : List (ℕ × Aabb)) (ab : Aabb)
    (h : ∀ p ∈ l, ¬ p.2.as_composite_shape.isSome) :
    compoundBuildLoop l i as ls ab =
      .ok (as ++ l.map (fun p => p.2.compute_aabb p.1),
           ls ++ List.enumFrom i (l.map (fun p => p.2.compute_aabb p.1)),
           (l.map (fun p => p.2.compute_aabb p.1)).foldl (fun a b => a.merge b) ab) := by
  induction l generalizing i as ls ab with
  | nil => simp [compoundBuildLoop]
  | cons hd tl ih =>
    obtain ⟨delta, shape⟩ := hd
    have hc : ¬ shape.as_composite_shape.isSome := h (delta, shape) (by simp)
    have htl : ∀ p ∈ tl, ¬ p.2.as_composite_shape.isSome := fun p hp => h p (by simp [hp])
    simp [compoundBuildLoop, hc, ih _ _ _ _ htl, List.enumFrom]

theorem except_map_eq_error_iff {α β γ : Type} (f : α → β) (x : Except γ α) (e : γ) :
    x.map f = .error e ↔ x = .error e := by
  cases x <;> simp [Except.map]

theorem except_map_isOk_iff {α β γ : Type} (f : α → β) (x : Except γ α) :
    (∃ b, x.map f = .ok b) ↔ ∃ a, x = .ok a := by
  cases x <;> simp [Except.map]

theorem compound_new_of_ne_nil (cs : List (Isometry × Shape)) (hne : cs ≠ []) :
    Compound.new cs = (compoundBuildLoop cs 0 [] [] Aabb.newInvalid).map
      (fun acc => { shapes := cs, bvh := acc.2.1, aabbs := acc.1, aabb := acc.2.2 }) := by
  unfold Compound.new
  rw [if_neg (by simpa using hne)]

/-- C3: `Compound::new(children)` fails with `EmptyCompound` exactly when
`children` is empty, fails with `NestedComposite` exactly when it is
non-empty and some child reports `as_composite_shape()` as `Some`, and for
every other input it returns a `Compound`. -/
theorem compound_new_failure_conditions (cs : List (Isometry × Shape)) :
    (Compound.new cs = .error .emptyCompound ↔ cs = []) ∧
    (Compound.new cs = .error .nestedComposite ↔
      cs ≠ [] ∧ ∃ p ∈ cs, p.2.as_composite_shape.isSome) ∧
    ((∃ c, Compound.new cs = .ok c) ↔
      cs ≠ [] ∧ ∀ p ∈ cs, ¬ p.2.as_composite_shape.isSome) := by
  cases cs with
  | nil => simp [Compound.new]
  | cons hd tl =>
    have hne : hd :: tl ≠ ([] : List (Isometry × Shape)) := by simp
    rw [compound_new_of_ne_nil (hd :: tl) hne]
    refine ⟨?_, ?_, ?_⟩
    · rw [except_map_eq_error_iff]
      exact ⟨fun hb => absurd hb (compoundBuildLoop_ne_empty _ _ _ _ _),
        fun hcontra => absurd hcontra hne⟩
    · rw [except_map_eq_error_iff, compoundBuildLoop_error_iff]
      simp [hne]
    · rw [except_map_isOk_iff]
      constructor
      · rintro ⟨acc, hacc⟩
        refine ⟨hne, fun p hp => ?_⟩
        intro hps
        rw [(compoundBuildLoop_error_iff (hd :: tl) 0 [] [] Aabb.newInvalid).mpr
          ⟨p, hp, hps⟩] at hacc
        exact Except.noConfusion hacc
      · rintro ⟨-, hall⟩
        exact ⟨_, compoundBuildLoop_ok (hd :: tl) 0 [] [] Aabb.newInvalid hall⟩

/-- C4: a successfully built `Compound` stores the caller's child list in
order; its parallel AABB table is `aabbs[i] =
shapes[i].1.compute_aabb(shapes[i].0)`; and `local_aabb()` is the fold of
`merge` over the AABB table starting from the invalid-AABB identity. -/
theorem compound_new_stores_children_aabbs_merge :
    ∀ (cs : List (Isometry × Shape)) (c : Compound), Compound.new cs = .ok c →
      c.shapes = cs ∧
      c.aabbs = cs.map (fun p => p.2.compute_aabb p.1) ∧
      (∀ (i : ℕ) (h1 : i < c.aabbs.length) (h2 : i < cs.length),
        c.aabbs.get ⟨i, h1⟩ = (cs.get ⟨i, h2⟩).2.compute_aabb (cs.get ⟨i, h2⟩).1) ∧
      c.local_aabb = c.aabbs.foldl (fun a b => a.merge b) Aabb.newInvalid := by
  intro cs c hok
  have hexists : ∃ c', Compound.new cs = .ok c' := ⟨c, hok⟩
  obtain ⟨hne, hall⟩ := (compound_new_failure_conditions cs).2.2.mp hexists
  have hloop := compoundBuildLoop_ok cs 0 [] [] Aabb.newInvalid hall
  have hnew : Compound.new cs =
      .ok { shapes := cs,
            bvh := List.enumFrom 0 (cs.map (fun p => p.2.compute_aabb p.1)),
            aabbs := cs.map (fun p => p.2.compute_aabb p.1),
            aabb := (cs.map (fun p => p.2.compute_aabb p.1)).foldl
              (fun a b => a.merge b) Aabb.newInvalid } := by
    rw [compound_new_of_ne_nil cs hne, hloop]
    simp [Except.map]
  rw [hok] at hnew
  cases hnew
  refine ⟨rfl, rfl, ?_, rfl⟩
  intro i h1 h2
  simp [List.get_eq_getElem, List.getElem_map]

/-- Concrete evaluation of `Compound::new` on a single unit ball at the
identity isometry. -/
theorem compound_new_example : Compound.new exampleChildren = .ok exampleCompound := by
  simp [Compound.new, compoundBuildLoop, Shape.compute_aabb, Shape.compute_local_aabb,
    Aabb.transform_by, Isometry.identity, Rot.identity, Rot.mulVec, Rot.absMat, Vec3.absV,
    Vec3.dot, Vec3.add, Vec3.sub, Vec3.splat, Aabb.center, Aabb.halfExtents, Vec3.zero,
    Shape.as_composite_shape, Aabb.merge, Aabb.newInvalid, Vec3.minV, Vec3.maxV,
    realMax, Except.map, exampleChildren, exampleCompound, ballUnitBox, List.enumFrom]
  norm_num [min_def, max_def]

/-- C4 (witness): `Compound::new` applied to a single unit ball at the
identity isometry produces exactly the example compound, whose stored data
satisfies the ordered-children/AABB-table/merge properties. -/
theorem compound_new_stores_witness :
    Compound.new exampleChildren = .ok exampleCompound ∧
      (exampleCompound.shapes = exampleChildren ∧
      exampleCompound.aabbs = exampleChildren.map (fun p => p.2.compute_aabb p.1) ∧
      (∀ (i : ℕ) (h1 : i < exampleCompound.aabbs.length)
          (h2 : i < exampleChildren.length),
        exampleCompound.aabbs.get ⟨i, h1⟩ =
          (exampleChildren.get ⟨i, h2⟩).2.compute_aabb (exampleChildren.get ⟨i, h2⟩).1) ∧
      exampleCompound.local_aabb =
        exampleCompound.aabbs.foldl (fun a b => a.merge b) Aabb.newInvalid) :=
  ⟨compound_new_example,
    compound_new_stores_children_aabbs_merge exampleChildren exampleCompound
      compound_new_example⟩

/-- C1 (failing evaluation): `Compound::ccd_angular_thickness` folds `max`
over the children but seeds the fold with `Real::MAX` (source lines
1051–1055), so for the compound of a single unit ball it returns `Real::MAX`
instead of the children's maximum `π` (the unit ball's angular thickness) —
the value even escapes the documented `[0, π]` range.  The thickness fold
(source lines 1045–1049) seeds `min` with `Real::MAX`, which is harmless. -/
theorem compound_ccd_angular_thickness_constant_bug :
    ∃ c : Compound, Compound.new exampleChildren = .ok c ∧
      c.toShape.ccd_angular_thickness = ((realMax : ℚ) : ℝ) ∧
      (Shape.ball 1).ccd_angular_thickness = Real.pi ∧
      c.toShape.ccd_angular_thickness ≠ Real.pi ∧
      c.toShape.ccd_thickness = 1 := by
  have hfour : (4 : ℝ) ≤ ((realMax : ℚ) : ℝ) := by
    have h4 : (4 : ℚ) ≤ realMax := by norm_num [realMax]
    exact_mod_cast h4
  have hpilt : Real.pi < ((realMax : ℚ) : ℝ) :=
    lt_of_le_of_lt (le_of_lt Real.pi_lt_d2) (lt_of_lt_of_le (by norm_num) hfour)
  have hang : exampleCompound.toShape.ccd_angular_thickness = ((realMax : ℚ) : ℝ) := by
    have : exampleCompound.toShape.ccd_angular_thickness =
        max ((realMax : ℚ) : ℝ) Real.pi := by
      simp [Compound.toShape, exampleCompound, exampleChildren,
        Shape.ccd_angular_thickness, ccdAngularThicknessFold]
    rw [this, max_eq_left (le_of_lt hpilt)]
  have hth : exampleCompound.toShape.ccd_thickness = 1 := by
    have : exampleCompound.toShape.ccd_thickness = min realMax 1 := by
      simp [Compound.toShape, exampleCompound, exampleChildren,
        Shape.ccd_thickness, ccdThicknessFold]
    rw [this, min_eq_right (by norm_num [realMax])]
  exact ⟨exampleCompound, compound_new_example, hang, rfl,
    hang ▸ ne_of_gt hpilt, hth⟩

/-- C6: `Cone::ccd_angular_thickness` (source lines 1459–1464) equals
`min(π/2 − apex_half_angle, 2·apex_half_angle)` with
`apex_half_angle = atan2(radius, half_height)`; at the boundary
`radius = half_height > 0` it equals `min(π/4, π/2)` (that is, `π/4`). -/
theorem cone_ccd_angular_thickness_formula :
    (∀ hh r : ℚ, (Shape.cone hh r).ccd_angular_thickness =
      min (Real.pi / 2 - atan2 ((r : ℚ) : ℝ) ((hh : ℚ) : ℝ))
        (2 * atan2 ((r : ℚ) : ℝ) ((hh : ℚ) : ℝ))) ∧
    (∀ r : ℚ, 0 < r → (Shape.cone r r).ccd_angular_thickness =
      min (Real.pi / 4) (Real.pi / 2)) := by
  have hbase : ∀ hh r : ℚ, (Shape.cone hh r).ccd_angular_thickness =
      min (Real.pi / 2 - atan2 ((r : ℚ) : ℝ) ((hh : ℚ) : ℝ))
        (2 * atan2 ((r : ℚ) : ℝ) ((hh : ℚ) : ℝ)) := by
    intro hh r
    simp only [Shape.ccd_angular_thickness]
    rw [mul_comm]
  refine ⟨hbase, fun r hr => ?_⟩
  have hrR : (0 : ℝ) < ((r : ℚ) : ℝ) := by exact_mod_cast hr
  have hat : atan2 ((r : ℚ) : ℝ) ((r : ℚ) : ℝ) = Real.pi / 4 := by
    rw [atan2, if_pos hrR, div_self (ne_of_gt hrR), Real.arctan_one]
  rw [hbase r r, hat]
  rw [show Real.pi / 2 - Real.pi / 4 = Real.pi / 4 by ring,
    show 2 * (Real.pi / 4) = Real.pi / 2 by ring]

/-- C6 (witness): the boundary case at `Cone(1, 1)`. -/
theorem cone_ccd_angular_thickness_witness :
    (0 : ℚ) < 1 ∧ (Shape.cone 1 1).ccd_angular_thickness =
      min (Real.pi / 4) (Real.pi / 2) :=
  ⟨by norm_num, cone_ccd_angular_thickness_formula.2 1 (by norm_num)⟩

/-- C8: `Ball::feature_normal_at_point` (source lines 728–737) returns `None`
at the origin, and for every point farther than the kernel epsilon from the
origin it returns `Some` of the unit vector in the direction of the point's
position vector, whatever the feature id. -/
theorem ball_feature_normal_at_point_spec :
    (∀ (r : ℚ) (fid : FeatureId),
      Ball.feature_normal_at_point r fid Vec3.zero = none) ∧
    (∀ (r : ℚ) (fid : FeatureId) (p : Vec3),
      ((defaultEpsilon : ℚ) : ℝ) < p.norm →
      ∃ u : ℝ × ℝ × ℝ, Ball.feature_normal_at_point r fid p = some u ∧
        u.1 = ((p.x : ℚ) : ℝ) / p.norm ∧
        u.2.1 = ((p.y : ℚ) : ℝ) / p.norm ∧
        u.2.2 = ((p.z : ℚ) : ℝ) / p.norm ∧
        u.1 ^ 2 + u.2.1 ^ 2 + u.2.2 ^ 2 = 1) := by
  have hepsQ : (0 : ℚ) < defaultEpsilon := by norm_num [defaultEpsilon]
  have heps : (0 : ℝ) < ((defaultEpsilon : ℚ) : ℝ) := by exact_mod_cast hepsQ
  constructor
  · intro r fid
    have h0 : Vec3.norm Vec3.zero = 0 := by
      simp [Vec3.norm, Vec3.normSq, Vec3.zero, Real.sqrt_zero]
    unfold Ball.feature_normal_at_point unitTryNew
    rw [if_pos (by rw [h0]; exact le_of_lt heps)]
  · intro r fid p hlt
    have hn0 : (0 : ℝ) < p.norm := lt_trans heps hlt
    have hne : p.norm ≠ 0 := ne_of_gt hn0
    have hsqnn : (0 : ℝ) ≤ ((p.normSq : ℚ) : ℝ) := by
      have : (0 : ℚ) ≤ p.normSq := by
        unfold Vec3.normSq
        nlinarith [mul_self_nonneg p.x, mul_self_nonneg p.y, mul_self_nonneg p.z]
      exact_mod_cast this
    have hsq : p.norm ^ 2 = ((p.normSq : ℚ) : ℝ) := Real.sq_sqrt hsqnn
    refine ⟨(((p.x : ℚ) : ℝ) / p.norm, ((p.y : ℚ) : ℝ) / p.norm,
      ((p.z : ℚ) : ℝ) / p.norm), ?_, rfl, rfl, rfl, ?_⟩
    · unfold Ball.feature_normal_at_point unitTryNew
      rw [if_neg (not_le.mpr hlt)]
    · have hexp : ((p.x : ℚ) : ℝ) ^ 2 + ((p.y : ℚ) : ℝ) ^ 2 + ((p.z : ℚ) : ℝ) ^ 2 =
          ((p.normSq : ℚ) : ℝ) := by
        unfold Vec3.normSq
        push_cast
        ring
      field_simp
      rw [hexp, ← hsq]

/-- C8 (witness): the point `(3, 4, 0)` is at distance `5 > ε` from the
origin, and the returned normal is its normalization. -/
theorem ball_feature_normal_witness :
    ((defaultEpsilon : ℚ) : ℝ) < Vec3.norm ⟨3, 4, 0⟩ ∧
      ∃ u : ℝ × ℝ × ℝ,
        Ball.feature_normal_at_point 1 (0 : ℕ) ⟨3, 4, 0⟩ = some u ∧
        u.1 = (((3 : ℚ) : ℝ)) / Vec3.norm ⟨3, 4, 0⟩ ∧
        u.2.1 = (((4 : ℚ) : ℝ)) / Vec3.norm ⟨3, 4, 0⟩ ∧
        u.2.2 = (((0 : ℚ) : ℝ)) / Vec3.norm ⟨3, 4, 0⟩ ∧
        u.1 ^ 2 + u.2.1 ^ 2 + u.2.2 ^ 2 = 1 := by
  have hn : Vec3.norm ⟨3, 4, 0⟩ = 5 := by
    unfold Vec3.norm Vec3.normSq
    rw [show ((((3 : ℚ) * 3 + 4 * 4 + 0 * 0 : ℚ)) : ℝ) = 5 ^ 2 by norm_num,
      Real.sqrt_sq (by norm_num)]
  have hlt : ((defaultEpsilon : ℚ) : ℝ) < Vec3.norm ⟨3, 4, 0⟩ := by
    rw [hn]
    have : (defaultEpsilon : ℚ) < 5 := by norm_num [defaultEpsilon]
    exact_mod_cast this
  exact ⟨hlt, ball_feature_normal_at_point_spec.2 1 (0 : ℕ) ⟨3, 4, 0⟩ hlt⟩

theorem scaleShapeList_none_iff (l : List (Isometry × Shape)) (s : Vec3) (n : ℕ) :
    scaleShapeList l s n = none ↔ ∃ p ∈ l, p.2.scale_dyn s n = none := by
  induction l with
  | nil => simp [scaleShapeList]
  | cons hd tl ih =>
    obtain ⟨pos, sh⟩ := hd
    cases hsh : sh.scale_dyn s n with
    | none =>
      simp only [scaleShapeList, hsh]
      exact ⟨fun _ => ⟨(pos, sh), by simp, hsh⟩, fun _ => by trivial⟩
    | some sh' =>
      cases hrest : scaleShapeList tl s n with
      | none =>
        simp only [scaleShapeList, hsh, hrest]
        obtain ⟨p, hp, hpn⟩ := ih.mp hrest
        exact ⟨fun _ => ⟨p, by simp [hp], hpn⟩, fun _ => by trivial⟩
      | some rest' =>
        simp only [scaleShapeList, hsh, hrest]
        constructor
        · intro hcontra
          exact Option.noConfusion hcontra
        · rintro ⟨p, hp, hpn⟩
          rcases List.mem_cons.mp hp with heq | hmem
          · rw [heq] at hpn
            rw [hpn] at hsh
            exact Option.noConfusion hsh
          · rw [ih.mpr ⟨p, hmem, hpn⟩] at hrest
            exact Option.noConfusion hrest

theorem scaleShapeList_some_spec (l l' : List (Isometry × Shape)) (s : Vec3) (n : ℕ)
    (h : scaleShapeList l s n = some l') :
    l'.length = l.length ∧
    ∀ (i : ℕ) (h1 : i < l'.length) (h2 : i < l.length),
      (l'.get ⟨i, h1⟩).1.translation = (l.get ⟨i, h2⟩).1.translation.compMul s ∧
      (l'.get ⟨i, h1⟩).1.rotation = (l.get ⟨i, h2⟩).1.rotation ∧
      some (l'.get ⟨i, h1⟩).2 = (l.get ⟨i, h2⟩).2.scale_dyn s n := by
  induction l generalizing l' with
  | nil =>
    simp only [scaleShapeList, Option.some.injEq] at h
    subst h
    simp
  | cons hd tl ih =>
    obtain ⟨pos, sh⟩ := hd
    simp only [scaleShapeList] at h
    cases hsh : sh.scale_dyn s n with
    | none => rw [hsh] at h; exact Option.noConfusion h
    | some sh' =>
      rw [hsh] at h
      cases hrest : scaleShapeList tl s n with
      | none => rw [hrest] at h; exact Option.noConfusion h
      | some rest' =>
        rw [hrest] at h
        obtain ⟨hlen, hpt⟩ := ih rest' hrest
        cases h
        refine ⟨by simp [hlen], ?_⟩
        intro i h1 h2
        cases i with
        | zero => exact ⟨rfl, rfl, hsh.symm⟩
        | succ j =>
          exact hpt j (Nat.lt_of_succ_lt_succ h1) (Nat.lt_of_succ_lt_succ h2)

theorem scaleShapeList_isSome_of_all (l : List (Isometry × Shape)) (s : Vec3) (n : ℕ)
    (h : ∀ p ∈ l, (p.2.scale_dyn s n).isSome) :
    ∃ l', scaleShapeList l s n = some l' := by
  cases hres : scaleShapeList l s n with
  | some l' => exact ⟨l', rfl⟩
  | none =>
    obtain ⟨p, hp, hpn⟩ := (scaleShapeList_none_iff l s n).mp hres
    have hsome := h p hp
    rw [hpn] at hsome
    exact absurd hsome (by simp)

theorem scale_dyn_preserves_noncomposite (sh : Shape) (s : Vec3) (n : ℕ) (t : Shape)
    (hnc : sh.as_composite_shape = none) (hsc : sh.scale_dyn s n = some t) :
    t.as_composite_shape = none := by
  cases sh with
  | ball r =>
    simp only [Shape.scale_dyn] at hsc
    split at hsc <;> (cases hsc; rfl)
  | cuboid he => cases hsc; rfl
  | capsule a b r =>
    simp only [Shape.scale_dyn] at hsc
    split at hsc <;> (cases hsc; rfl)
  | segment a b => cases hsc; rfl
  | triangle a b c => cases hsc; rfl
  | voxels vs la => cases hsc; rfl
  | trimesh la => exact absurd hnc (by simp [Shape.as_composite_shape])
  | polyline la => exact absurd hnc (by simp [Shape.as_composite_shape])
  | halfSpace nv =>
    simp only [Shape.scale_dyn] at hsc
    split at hsc
    · exact Option.noConfusion hsc
    · cases hsc; rfl
  | heightField la => cases hsc; rfl
  | compound shapes bvh aabbs aabb =>
    exact absurd hnc (by simp [Shape.as_composite_shape])
  | convexPolyhedron la =>
    simp only [Shape.scale_dyn] at hsc
    split at hsc
    · exact Option.noConfusion hsc
    · cases hsc; rfl
  | cylinder hh r =>
    simp only [Shape.scale_dyn] at hsc
    split at hsc <;> (cases hsc; rfl)
  | cone hh r =>
    simp only [Shape.scale_dyn] at hsc
    split at hsc <;> (cases hsc; rfl)
  | round inner r =>
    simp only [Shape.scale_dyn] at hsc
    cases hmap : inner.scale_dyn s n with
    | none => rw [hmap] at hsc; exact Option.noConfusion hsc
    | some i' =>
      rw [hmap] at hsc
      cases hsc
      rfl

theorem scaleShapeList_preserves_noncomposite (l l' : List (Isometry × Shape))
    (s : Vec3) (n : ℕ)
    (hall : ∀ p ∈ l, p.2.as_composite_shape = none)
    (h : scaleShapeList l s n = some l') :
    ∀ p ∈ l', p.2.as_composite_shape = none := by
  induction l generalizing l' with
  | nil =>
    simp only [scaleShapeList, Option.some.injEq] at h
    subst h
    simp
  | cons hd tl ih =>
    obtain ⟨pos, sh⟩ := hd
    simp only [scaleShapeList] at h
    cases hsh : sh.scale_dyn s n with
    | none => rw [hsh] at h; exact Option.noConfusion h
    | some sh' =>
      rw [hsh] at h
      cases hrest : scaleShapeList tl s n with
      | none => rw [hrest] at h; exact Option.noConfusion h
      | some rest' =>
        rw [hrest] at h
        cases h
        intro p hp
        rcases List.mem_cons.mp hp with heq | hmem
        · rw [heq]
          exact scale_dyn_preserves_noncomposite sh s n sh'
            (hall (pos, sh) (by simp)) hsh
        · exact ih rest' (fun q hq => hall q (List.mem_cons_of_mem _ hq)) hrest p hmem

theorem compound_new_shapes_eq (cs : List (Isometry × Shape)) (c : Compound)
    (h : Compound.new cs = .ok c) : c.shapes = cs := by
  rcases eq_or_ne cs [] with hnil | hne
  · subst hnil
    simp only [Compound.new, List.isEmpty_nil, if_true] at h
    exact Except.noConfusion h
  · rw [compound_new_of_ne_nil cs hne] at h
    cases hb : compoundBuildLoop cs 0 [] [] Aabb.newInvalid with
    | ok acc =>
      rw [hb] at h
      simp only [Except.map, Except.ok.injEq] at h
      rw [← h]
    | error e =>
      rw [hb] at h
      simp only [Except.map] at h
      exact Except.noConfusion h

/-- C7: `Compound::scale_dyn(scale, subdivisions)` (source lines 1001–1019)
scales each child's translation componentwise by `scale`, preserves each
child's rotation, replaces each child shape by that child's `scale_dyn`
result, and returns `None` exactly when some child's `scale_dyn` returns
`None` — for every compound whose children satisfy the construction
invariant (non-empty, no composite children). -/
theorem compound_scale_dyn_structure :
    ∀ (c : Compound) (s : Vec3) (nsub : ℕ),
      c.shapes ≠ [] →
      (∀ p ∈ c.shapes, p.2.as_composite_shape = none) →
      ScaleDynSpec c s nsub := by
  intro c s nsub hne hall
  have hunfold : c.toShape.scale_dyn s nsub =
      (match scaleShapeList c.shapes s nsub with
        | none => none
        | some scaled => (Compound.new scaled).toOption.map Compound.toShape) := by
    simp only [Compound.toShape, Shape.scale_dyn]
  have hok : ∀ l', scaleShapeList c.shapes s nsub = some l' →
      ∃ c' : Compound, Compound.new l' = .ok c' := by
    intro l' hres
    have hspec := scaleShapeList_some_spec c.shapes l' s nsub hres
    have hl'ne : l' ≠ [] := by
      intro h0
      rw [h0] at hspec
      exact hne (List.length_eq_zero.mp hspec.1.symm)
    have hl'nc : ∀ p ∈ l', ¬ p.2.as_composite_shape.isSome := by
      intro p hp
      rw [scaleShapeList_preserves_noncomposite c.shapes l' s nsub hall hres p hp]
      simp
    exact (compound_new_failure_conditions l').2.2.mpr ⟨hl'ne, hl'nc⟩
  constructor
  · cases hres : scaleShapeList c.shapes s nsub with
    | none =>
      rw [hunfold, hres]
      simpa using (scaleShapeList_none_iff c.shapes s nsub).mp hres
    | some l' =>
      rw [hunfold, hres]
      obtain ⟨c', hc'⟩ := hok l' hres
      simp only [hc', Except.toOption, Option.map_some', iff_false, ne_eq,
        Option.some_ne_none, false_iff, not_exists]
      intro p hp
      rw [(scaleShapeList_none_iff c.shapes s nsub).mpr ⟨p, hp.1, hp.2⟩] at hres
      exact Option.noConfusion hres
  · intro hallsome
    obtain ⟨l', hres⟩ := scaleShapeList_isSome_of_all c.shapes s nsub hallsome
    obtain ⟨c', hc'⟩ := hok l' hres
    have hshapes : c'.shapes = l' := compound_new_shapes_eq l' c' hc'
    have hspec := scaleShapeList_some_spec c.shapes l' s nsub hres
    refine ⟨c', ?_, ?_, ?_⟩
    · rw [hunfold, hres]
      simp [hc', Except.toOption]
    · rw [hshapes]
      exact hspec.1
    · intro i h1 h2
      have h1' : i < l'.length := by rw [← hshapes]; exact h1
      have := hspec.2 i h1' h2
      constructor
      · rw [← this.1]
        congr 1
        simp [hshapes]
      · constructor
        · rw [← this.2.1]
          congr 1
          simp [hshapes]
        · rw [← this.2.2]
          congr 2
          simp [hshapes]

/-- C7 (witness): scaling the two-child example compound by `(2, 2, 2)`. -/
theorem compound_scale_dyn_witness :
    scaleExampleCompound.shapes ≠ [] ∧
      (∀ p ∈ scaleExampleCompound.shapes, p.2.as_composite_shape = none) ∧
      ScaleDynSpec scaleExampleCompound ⟨2, 2, 2⟩ 4 := by
  have h1 : scaleExampleCompound.shapes ≠ [] := by simp [scaleExampleCompound]
  have h2 : ∀ p ∈ scaleExampleCompound.shapes, p.2.as_composite_shape = none := by
    intro p hp
    simp only [scaleExampleCompound, List.mem_cons, List.mem_singleton,
      List.not_mem_nil, or_false] at hp
    rcases hp with rfl | rfl <;> rfl
  exact ⟨h1, h2, compound_scale_dyn_structure scaleExampleCompound ⟨2, 2, 2⟩ 4 h1 h2⟩

end Parry
